import Mathlib

/-!
# A verification development for `pip/pep425tags.py`

A shallow embedding, in Lean 4, of the PEP-425 compatibility-tag module
(`pip/pep425tags.py` together with `pip/platform/__init__.py`), plus proofs of
the behavioural properties claimed about it.

Modelling conventions:
* Host facts probed by the module (`sys.platform`, `sys.version_info`,
  `sysconfig.get_config_var`, `distutils.util.get_platform()`,
  `imp.get_suffixes()`, the distribution probe `pip.platform.linux`) are
  collected in an `Env` structure; each Python function becomes a Lean
  function of the `Env`.
* `sysconfig.get_config_var` can raise `IOError` (see issue 1074 referenced in
  the source); a raw configuration read is therefore modelled as a
  `ReadResult`: either a value (possibly absent) or a read error.
* Python exceptions escaping a function are modelled with `Except PyErr`.
* Strings are modelled at the level of Unicode code points (`List Char`);
  `str.lower` is modelled by its basic-Latin (ASCII) case table, which agrees
  with Python on every character the surrounding code distinguishes, since
  every non-ASCII character is replaced by the filter that follows the
  lowering step.
* Note that the source file defines `get_abi_tag` (and `get_impl_ver_info`)
  twice; per Python semantics the later definition (source lines 125-135)
  shadows the earlier one (source lines 84-115), so the later definition is
  the one embedded as `get_abi_tag` here.
-/

namespace Pep425

/-- Result of a raw `sysconfig.get_config_var(...)` call: either a value
(`none` models Python `None` / an unset variable) or an `IOError` raised by
the read (the situation of issue 1074 cited in the source). -/
inductive ReadResult where
  | val : Option String → ReadResult
  | err : ReadResult
deriving DecidableEq

/-- A Python exception escaping a modelled function. -/
inductive PyErr where
  | ioError : PyErr
  | indexError : PyErr
deriving DecidableEq

/-- A PEP 425 tag: `(interpreter, abi, platform)`. -/
abbrev PyTag := String × String × String

/-- The host environment probed by `pep425tags.py`.  Fields record, in order:
`sys.platform`; whether `sys` has `pypy_version_info`; `sys.version_info[0]`
and `[1]`; `sys.pypy_version_info.major` and `.minor`; the raw reads of the
config variables `SOABI` and `py_version_nodot`; whether the build uses the
specialized allocator (pymalloc — recorded for comparison with the spec, the
live code never consults it); whether `sys.pydebug` exists and is true;
whether `sys.maxunicode == 0x10ffff`; `distutils.util.get_platform()`; the
result of the host-distribution probe `pip.platform.linux
.get_specific_platform()` as `(dist, major, full, stability)` (that module
only reads host facts, so its result is environment data here); and the
first components of `imp.get_suffixes()`. -/
structure Env where
  sysPlatform : String
  isPypy : Bool
  versionInfoMajor : Nat
  versionInfoMinor : Nat
  pypyMajor : Nat
  pypyMinor : Nat
  soabiRead : ReadResult
  pyVersionNodotRead : ReadResult
  pymalloc : Bool
  pydebug : Bool
  wideUnicode : Bool
  distutilsPlatform : String
  linuxSpecific : Option (String × String × String × String)
  extSuffixes : List String

/-- Is `c` an ASCII decimal digit?  (`string.digits` membership, and the
character class `\d` of the platform pattern, at the ASCII level.) -/
def isAsciiDigit (c : Char) : Bool :=
  48 ≤ c.toNat && c.toNat ≤ 57

/-- Is `c` an ASCII lowercase letter? -/
def isAsciiLower (c : Char) : Bool :=
  97 ≤ c.toNat && c.toNat ≤ 122

/-- Is `c` an ASCII uppercase letter? -/
def isAsciiUpper (c : Char) : Bool :=
  65 ≤ c.toNat && c.toNat ≤ 90

/-- The basic-Latin case map of Python `str.lower`: shift an ASCII uppercase
letter down into the lowercase range, leave everything else in place. -/
def pyCharLower (c : Char) : Char :=
  if isAsciiUpper c then Char.ofNat (c.toNat + 32) else c

/-- Membership in `string.ascii_letters + string.digits` (source line 28). -/
def pyIsAlnum (c : Char) : Bool :=
  isAsciiLower c || isAsciiUpper c || isAsciiDigit c

/-- One character of `normalize` (source lines 23-29): the source lowers the
whole string first and then replaces every character outside
`string.ascii_letters + string.digits` by `'_'`; composed per character. -/
def normalizeChar (c : Char) : Char :=
  let lc := pyCharLower c
  if pyIsAlnum lc then lc else '_'

/-- `normalize` (source lines 23-29): lower-case, then replace every
non-alphanumeric character by `'_'`. -/
def normalize (s : String) : String :=
  String.mk (s.data.map normalizeChar)

/-- The ASCII digit character of `d` (for `d ≤ 9`; larger arguments do not
arise). -/
def digitChar (d : Nat) : Char :=
  if d = 0 then '0' else if d = 1 then '1' else if d = 2 then '2'
  else if d = 3 then '3' else if d = 4 then '4' else if d = 5 then '5'
  else if d = 6 then '6' else if d = 7 then '7' else if d = 8 then '8'
  else '9'

/-- Decimal digits of `n` in front of `acc`, as long as fuel lasts: the
working loop of Python `str(n)` for a non-negative `n` (`fuel ≥ 1` always
suffices for the digit count, see `natToStr`). -/
def natToStrCore : Nat → Nat → List Char → List Char
  | 0, _, acc => acc
  | fuel + 1, n, acc =>
    if n / 10 = 0 then digitChar (n % 10) :: acc
    else natToStrCore fuel (n / 10) (digitChar (n % 10) :: acc)

/-- Python `str(n)` for a non-negative integer `n`. -/
def natToStr (n : Nat) : String :=
  String.mk (natToStrCore (n + 1) n [])

/-- Python `s.startswith(p)`: `p` is a prefix of `s` (character-level,
kernel-computable). -/
def pyStartsWith (s p : String) : Bool :=
  p.data.isPrefixOf s.data

/-- Python string comparison `a <= b`: lexicographic on code points. -/
def charListLe : List Char → List Char → Bool
  | [], _ => true
  | _ :: _, [] => false
  | a :: as, b :: bs =>
    if a.toNat < b.toNat then true
    else if b.toNat < a.toNat then false
    else charListLe as bs

/-- Python string comparison `a <= b` on `String`. -/
def strLe (a b : String) : Bool :=
  charListLe a.data b.data

/-- Insert into an ascending list, keeping it ascending. -/
def insertSorted (x : String) : List String → List String
  | [] => [x]
  | y :: ys => if strLe x y then x :: y :: ys else y :: insertSorted x ys

/-- Python `sorted(...)` for a list of strings (insertion sort; agrees with
any sort on the distinct-element lists it is applied to). -/
def sortStrings : List String → List String
  | [] => []
  | x :: xs => insertSorted x (sortStrings xs)

/-- Python `int(s)` for a non-empty all-digit string: fold the decimal
digits. -/
def parseNat (s : String) : Nat :=
  s.data.foldl (fun acc c => acc * 10 + (c.toNat - 48)) 0

/-- Python `str.split(sep)` for a one-character separator, at the
code-point level: `splitChar sep l` are the maximal runs of `l` between
occurrences of `sep`. -/
def splitChar (sep : Char) : List Char → List (List Char)
  | [] => [[]]
  | c :: rest =>
    if c = sep then [] :: splitChar sep rest
    else
      match splitChar sep rest with
      | [] => [[c]]
      | p :: ps => (c :: p) :: ps

/-- Python `s.split(sep)` for a one-character separator. -/
def pySplit (sep : Char) (s : String) : List String :=
  (splitChar sep s.data).map String.mk

/-- Python `s.split('-', 1)[-1]`: everything after the first `'-'`, or `s`
itself when there is none (source line 132). -/
def afterFirstDash (s : String) : String :=
  match pySplit '-' s with
  | [] => s
  | [_] => s
  | _ :: rest => String.intercalate ("-") rest

/-- `get_config_var` (source lines 32-37): the guarded configuration read —
an `IOError` is caught (a `RuntimeWarning` is emitted) and `None` is
returned; it never propagates the error. -/
def get_config_var : ReadResult → Option String
  | ReadResult.err => none
  | ReadResult.val v => v

/-- `get_abbr_impl` (source lines 40-50): abbreviated implementation name.
Note the PyPy branch yields `'pp' + str(sys.version_info[0])`, never the bare
string `'pp'`. -/
def get_abbr_impl (e : Env) : String :=
  if e.isPypy then "pp" ++ natToStr e.versionInfoMajor
  else if pyStartsWith e.sysPlatform ("java") then "jy"
  else if e.sysPlatform = "cli" then "ip"
  else "cp"

/-- `get_impl_version_info` (source lines 61-69).  The guard compares
`get_abbr_impl()` with the literal `'pp'`; since `get_abbr_impl` returns
`'pp' + major` for PyPy, that comparison is never true and the second branch
is always taken, exactly as in the source. -/
def get_impl_version_info (e : Env) : List Nat :=
  if get_abbr_impl e = "pp" then
    [e.versionInfoMajor, e.pypyMajor, e.pypyMinor]
  else
    [e.versionInfoMajor, e.versionInfoMinor]

/-- `''.join(map(str, t))` for a tuple of non-negative integers. -/
def joinNats : List Nat → String
  | [] => ""
  | n :: rest => natToStr n ++ joinNats rest

/-- `get_impl_ver` (source lines 53-58): the `py_version_nodot` configuration
value if it is set and non-empty (read through the guarded `get_config_var`),
else the joined components of `get_impl_version_info()`; the `== 'pp'` guard
is as in the source (and never true, see `get_impl_version_info`). -/
def get_impl_ver (e : Env) : String :=
  match get_config_var e.pyVersionNodotRead with
  | none => joinNats (get_impl_version_info e)
  | some s =>
    if s = "" ∨ get_abbr_impl e = "pp" then joinNats (get_impl_version_info e)
    else s

/-- `get_abi_tag` — the live (later, shadowing) definition, source lines
125-135.  It reads `SOABI` through the raw `sysconfig.get_config_var`, so a
read error propagates as an `IOError`.  When `SOABI` is unset or empty it
synthesizes `impl + ver + d + 'm' + u` (`'m'` unconditionally, `'d'` iff
`sys.pydebug`, `'u'` iff `sys.maxunicode == 0x10ffff`); when `SOABI` starts
with `'cpython-'` it returns `'cp' + soabi.split('-', 1)[-1]`; otherwise it
returns the `default` argument. -/
def get_abi_tag (e : Env) (default : Option String) : Except PyErr (Option String) :=
  match e.soabiRead with
  | ReadResult.err => Except.error PyErr.ioError
  | ReadResult.val soabiOpt =>
    let soabi := soabiOpt.getD ("")
    Except.ok <|
      if soabi = "" then
        some (get_abbr_impl e ++ get_impl_ver e
              ++ (if e.pydebug then "d" else "") ++ "m"
              ++ (if e.wideUnicode then "u" else ""))
      else if pyStartsWith soabi ("cpython-") then
        some ("cp" ++ afterFirstDash soabi)
      else default

/-- `get_specific_platform` (`pip/platform/__init__.py`): delegates to the
host-distribution probe when the first dash-component of
`distutils.util.get_platform()` is `'linux'`, else `None`. -/
def get_specific_platform (e : Env) : Option (String × String × String × String) :=
  if (pySplit '-' e.distutilsPlatform).headD ("") = "linux" then e.linuxSpecific
  else none

/-- The platform list of `get_platforms` (source lines 138-155) before the
final `reversed(...)`, minus the leading `'any'`: the normalized
`distutils` platform, then the distribution-qualified variants (or the
`unknown_distribution` fallback on linux). -/
def restPlatforms (e : Env) : List String :=
  let plat := e.distutilsPlatform
  [normalize plat] ++
    match get_specific_platform e with
    | some (dist, major, full, _) =>
      let major_version := normalize (String.intercalate ("-") ([plat] ++ [dist, major]))
      let full_version := normalize (String.intercalate ("-") ([plat] ++ [dist, full]))
      [major_version] ++ (if major_version ≠ full_version then [full_version] else [])
    | none =>
      if pyStartsWith plat ("linux") then
        [normalize (String.intercalate ("-") ([plat] ++ ["unknown_distribution", "unknown_version"]))]
      else []

/-- `get_platforms` (source lines 138-155): `['any', normalized platform,
distribution variants...]`, reversed, so the most specific identifier comes
first and `'any'` last. -/
def get_platforms (e : Env) : List String :=
  ("any" :: restPlatforms e).reverse

/-- `get_platform` (source lines 158-159): the most specific platform. -/
def get_platform (e : Env) : String :=
  (get_platforms e).headD ("")

/-- The mutually-compatible architecture encodings of one reported darwin
architecture (source lines 207-217), in emission order. -/
def darwin_arches (actual_arch : String) : List String :=
  [actual_arch]
  ++ (if actual_arch = "i386" ∨ actual_arch = "ppc" then ["fat"] else [])
  ++ (if actual_arch = "i386" ∨ actual_arch = "x86_64" then ["intel"] else [])
  ++ (if actual_arch = "i386" ∨ actual_arch = "ppc" ∨ actual_arch = "x86_64" then ["fat3"] else [])
  ++ (if actual_arch = "ppc64" ∨ actual_arch = "x86_64" then ["fat64"] else [])
  ++ (if actual_arch = "i386" ∨ actual_arch = "x86_64" ∨ actual_arch = "intel"
        ∨ actual_arch = "ppc" ∨ actual_arch = "ppc64" then ["universal"] else [])

/-- The suffix part of `_osx_arch_pat` after a candidate position of the
first literal `'_'`: greedily read a non-empty digit run, a literal `'_'`, a
second non-empty digit run, a literal `'_'`, and a non-empty remainder
(`(\d+)_(\d+)_(.+)` against the whole remainder, `(.+)` swallowing the
rest). -/
def osxMatchRest (r : List Char) : Option (List Char × List Char × List Char) :=
  let b := r.takeWhile isAsciiDigit
  let r1 := r.dropWhile isAsciiDigit
  if b.isEmpty then none
  else
    match r1 with
    | '_' :: r2 =>
      let c := r2.takeWhile isAsciiDigit
      let r3 := r2.dropWhile isAsciiDigit
      if c.isEmpty then none
      else
        match r3 with
        | '_' :: d => if d.isEmpty then none else some (b, c, d)
        | _ => none
    | _ => none

/-- `_osx_arch_pat.match(arch)` for the pattern `(.+)_(\d+)_(\d+)_(.+)`
(source line 20): the greedy leading `(.+)` tries the positions of `'_'`
from the rightmost to the left (a nonempty group needs position `≥ 1`), and
the first position whose remainder parses wins. -/
def osx_match (s : String) : Option (String × String × String × String) :=
  let l := s.data
  let idxs := ((List.range l.length).filter
    (fun i => decide (1 ≤ i) && (l.getD i ' ' == '_'))).reverse
  idxs.findSome? (fun i =>
    (osxMatchRest (l.drop (i + 1))).map (fun bcd =>
      (String.mk (l.take i), String.mk bcd.1, String.mk bcd.2.1, String.mk bcd.2.2)))

/-- The per-platform body of the darwin branch of `get_supported` (source
lines 202-224): when the platform parses as `name_major_minor_arch`, emit
`name_major_m_a` for every minor `m` from the reported one down to `0` and
every compatible architecture encoding `a`; otherwise pass the platform
through unchanged. -/
def darwin_expand_arch (arch : String) : List String :=
  match osx_match arch with
  | some (name, major, minor, actual_arch) =>
    ((List.range ((parseNat minor) + 1)).reverse).flatMap (fun m =>
      (darwin_arches actual_arch).map (fun a =>
        name ++ "_" ++ major ++ "_" ++ natToStr m ++ "_" ++ a))
  | none => [arch]

/-- The `arches` list of `get_supported` (source lines 199-226): every
reported platform, macro-expanded on darwin and passed through elsewhere. -/
def pyArches (e : Env) : List String :=
  (get_platforms e).flatMap (fun arch =>
    if e.sysPlatform = "darwin" then darwin_expand_arch arch else [arch])

/-- The distinct elements of a list (Python `set(...)` as an element
collection; the order is irrelevant because the caller sorts). -/
def distinctList : List String → List String
  | [] => []
  | x :: xs => if x ∈ xs then distinctList xs else x :: distinctList xs

/-- The sorted distinct `abiN` markers drawn from the extension-loading
suffixes (source lines 188-194): for every suffix starting with `'.abi'`,
the component between the first and second dot, collected into a set and
sorted (`sorted(list(set(...)))`). -/
def abi3Set (e : Env) : List String :=
  sortStrings (distinctList ((e.extSuffixes.filter (fun s => pyStartsWith s (".abi"))).map
    (fun s => (pySplit '.' s).getD 1 (""))))

/-- The `abis` list of `get_supported` (source lines 182-196): the live ABI
tag if truthy, then the sorted stable-ABI markers, then `'none'`. -/
def pyAbis (e : Env) (abi : Option String) : List String :=
  (match abi with
   | some a => if a = "" then [] else [a]
   | none => []) ++ abi3Set e ++ ["none"]

/-- The version fallback derivation of `get_supported` (source lines
172-178): all components of `get_impl_version_info()` but the last stay
fixed while the last counts down to zero, each step joined into one
string. -/
def deriveVersions (e : Env) : List String :=
  let version_info := get_impl_version_info e
  let major := version_info.dropLast
  ((List.range (version_info.getLastD 0 + 1)).reverse).map (fun minor =>
    joinNats (major ++ [minor]))

/-- The versions actually used by a `get_supported` call: the argument if
given, else the derived fallback list. -/
def actualVersions (e : Env) (versionsArg : Option (List String)) : List String :=
  match versionsArg with
  | none => deriveVersions e
  | some vs => vs

/-- The string of the first character of `s` (Python `s[0]` for a non-empty
string). -/
def firstCharStr (s : String) : String :=
  match s.data with
  | [] => ""
  | c :: _ => String.singleton c

/-- One implementation-specific pure tier of `get_supported` (source lines
237-242 with the prefix `impl`, lines 245-248 with the prefix `'py'`): for
every version `(pre + version, 'none', 'any')`, and right after the first
version also `(pre + versions[0][0], 'none', 'any')`; indexing `versions[0]
[0]` into an empty first version raises `IndexError`. -/
def implTier (pre : String) : List String → Except PyErr (List PyTag)
  | [] => Except.ok []
  | v :: rest =>
    match v.data with
    | [] => Except.error PyErr.indexError
    | c :: _ =>
      Except.ok ([(pre ++ v, "none", "any"), (pre ++ String.singleton c, "none", "any")]
        ++ rest.map (fun w => (pre ++ w, "none", "any")))

/-- The two binary tiers of `get_supported` when `noarch` is false (source
lines 228-234): every `abi × arch` combination for the current version, then
the single `('py' + major digit, 'none', arch)` tag, where `arch` is the
leftover loop variable — the last element of `arches`.  `versions[0]` and
`versions[0][0]` raise `IndexError` on an empty list / empty string. -/
def binaryTiers (e : Env) (impl : String) (abis versions : List String) :
    Except PyErr (List PyTag) :=
  match versions with
  | [] => Except.error PyErr.indexError
  | v0 :: _ =>
    match v0.data with
    | [] => Except.error PyErr.indexError
    | c :: _ =>
      let arches := pyArches e
      Except.ok
        (abis.flatMap (fun abi => arches.map (fun arch => (impl ++ v0, abi, arch)))
         ++ [("py" ++ String.singleton c, "none", arches.getLastD (""))])

/-- `get_supported` (source lines 162-250): derive the version fallback list
when none is given, compute the live ABI tag (a `SOABI` read error
propagates), then emit the binary tiers (unless `noarch`), the
implementation-specific pure tier, and the generic pure tier. -/
def get_supported (e : Env) (versionsArg : Option (List String)) (noarch : Bool) :
    Except PyErr (List PyTag) :=
  let versions := actualVersions e versionsArg
  let impl := get_abbr_impl e
  match get_abi_tag e none with
  | Except.error er => Except.error er
  | Except.ok abiOpt =>
    let abis := pyAbis e abiOpt
    match (if noarch then Except.ok [] else binaryTiers e impl abis versions :
        Except PyErr (List PyTag)) with
    | Except.error er => Except.error er
    | Except.ok bt =>
      match implTier impl versions with
      | Except.error er => Except.error er
      | Except.ok t3 =>
        match implTier ("py") versions with
        | Except.error er => Except.error er
        | Except.ok t4 => Except.ok (bt ++ t3 ++ t4)

/-- The payload of a successful `implTier pre (v0 :: rest)` call (the
implementation-specific or generic pure tier, source lines 237-248). -/
def implTierList (pre v0 : String) (c : Char) (rest : List String) : List PyTag :=
  [(pre ++ v0, "none", "any"), (pre ++ String.singleton c, "none", "any")]
    ++ rest.map (fun w => (pre ++ w, "none", "any"))

/-- The payload of a successful `binaryTiers` call (source lines 228-234):
the exact-build tier followed by the ABI-agnostic boundary tag. -/
def binaryTierList (e : Env) (w : Option String) (v0 : String) (c : Char) : List PyTag :=
  (pyAbis e w).flatMap (fun abi =>
    (pyArches e).map (fun arch => (get_abbr_impl e ++ v0, abi, arch)))
    ++ [("py" ++ String.singleton c, "none", (pyArches e).getLastD (""))]

/-- The safe tag alphabet `[a-z0-9_]`. -/
def tagAlphabet (c : Char) : Bool :=
  isAsciiLower c || isAsciiDigit c || c == '_'

/-! ## The textual tag serialization contract

Modelled from the spec: the serialization of a tag joins its three fields
with the `'-'` separator (`interpreter-abi-platform`), and an external
catalog parses it back by splitting on `'-'`; this contract is not code of
the module itself. -/

/-- Modelled from the spec: join the three fields of a tag with the declared
`'-'` separator. -/
def joinTag (t : PyTag) : String :=
  t.1 ++ "-" ++ t.2.1 ++ "-" ++ t.2.2

/-- Modelled from the spec: split a serialized tag back into fields on the
`'-'` separator. -/
def splitTag (s : String) : List String :=
  pySplit '-' s

/-- The round-trip property of one tag: splitting the joined string yields
exactly the original three fields. -/
def roundTrips (t : PyTag) : Prop :=
  splitTag (joinTag t) = [t.1, t.2.1, t.2.2]

instance (t : PyTag) : Decidable (roundTrips t) := by
  unfold roundTrips
  infer_instance

/-- `s` does not contain the tag separator. -/
def dashFree (s : String) : Prop :=
  '-' ∉ s.data

instance (s : String) : Decidable (dashFree s) := by
  unfold dashFree
  infer_instance

/-- Modelled from the spec (for comparison with the code): the synthesized
ABI tag the spec prescribes when the runtime exposes no native signature —
family abbreviation + implementation version + `'d'` iff the debug-build
flag, + `'m'` iff the specialized-allocator (pymalloc) flag, + `'u'` iff the
wide-unicode flag. -/
def spec_abi_tag (e : Env) : String :=
  get_abbr_impl e ++ get_impl_ver e
    ++ (if e.pydebug then "d" else "")
    ++ (if e.pymalloc then "m" else "")
    ++ (if e.wideUnicode then "u" else "")

/-- The ABI value `get_supported` works with: the result of the live
`get_abi_tag` call when it succeeds (`None` when it raises; only used to
state positions inside successful enumerations). -/
def liveAbiOpt (e : Env) : Option String :=
  match get_abi_tag e none with
  | Except.ok v => v
  | Except.error _ => none

/-! ## Concrete host environments used as explicit inputs -/

/-- A CPython 3.8 linux host: `SOABI` unset, `py_version_nodot = "38"`,
pymalloc build, no debug build, wide unicode, platform `linux-x86_64`, no
distribution information, no stable-ABI suffixes. -/
def envScenario : Env :=
  ⟨"linux", false, 3, 8, 0, 0, ReadResult.val none, ReadResult.val (some ("38")),
    true, false, true, "linux-x86_64", none, []⟩

/-- Like `envScenario` but a narrow-unicode build without pymalloc. -/
def envNoPymalloc : Env :=
  ⟨"linux", false, 3, 8, 0, 0, ReadResult.val none, ReadResult.val (some ("38")),
    false, false, false, "linux-x86_64", none, []⟩

/-- A host whose runtime reports the ABI signature `pypy-41` (no
`cpython-` marker). -/
def envPypySoabi : Env :=
  ⟨"linux", false, 3, 8, 0, 0, ReadResult.val (some ("pypy-41")),
    ReadResult.val (some ("38")), true, false, true, "linux-x86_64", none, []⟩

/-- A host where reading the `SOABI` configuration variable raises
`IOError`. -/
def envReadErr : Env :=
  ⟨"linux", false, 3, 8, 0, 0, ReadResult.err, ReadResult.val (some ("38")),
    true, false, true, "linux-x86_64", none, []⟩

/-- A CPython 3.8 linux host that reports the full multi-component
`SOABI = cpython-38-x86_64-linux-gnu`. -/
def envDashSoabi : Env :=
  ⟨"linux", false, 3, 8, 0, 0, ReadResult.val (some ("cpython-38-x86_64-linux-gnu")),
    ReadResult.val (some ("38")), true, false, true, "linux-x86_64", none, []⟩

/-! ## Character-level facts about normalization -/

theorem char_toNat_ofNat_of_lt {n : Nat} (h : n < 55296) : (Char.ofNat n).toNat = n := by
  have hv : n.isValidChar := Or.inl h
  rw [Char.ofNat, dif_pos hv]
  rfl

theorem isAsciiUpper_pyCharLower (c : Char) : isAsciiUpper (pyCharLower c) = false := by
  unfold pyCharLower
  by_cases h : isAsciiUpper c = true
  · rw [if_pos h]
    unfold isAsciiUpper at h ⊢
    have hb : c.toNat + 32 < 55296 := by
      simp only [Bool.and_eq_true, decide_eq_true_eq] at h
      omega
    rw [char_toNat_ofNat_of_lt hb]
    simp only [Bool.and_eq_true, decide_eq_true_eq] at h ⊢
    simp only [Bool.and_eq_false_iff, decide_eq_false_iff_not]
    omega
  · rw [if_neg h]
    exact Bool.eq_false_iff.mpr h

theorem pyCharLower_of_not_upper {c : Char} (h : isAsciiUpper c = false) :
    pyCharLower c = c := by
  unfold pyCharLower
  rw [if_neg (by simp [h])]

theorem tagAlphabet_normalizeChar (c : Char) : tagAlphabet (normalizeChar c) = true := by
  unfold normalizeChar tagAlphabet
  by_cases h : pyIsAlnum (pyCharLower c) = true
  · rw [if_pos h]
    unfold pyIsAlnum at h
    have hu := isAsciiUpper_pyCharLower c
    rw [hu] at h
    simp only [Bool.or_false] at h
    simp [h]
  · rw [if_neg h]
    decide

theorem normalizeChar_idem (c : Char) :
    normalizeChar (normalizeChar c) = normalizeChar c := by
  by_cases h : pyIsAlnum (pyCharLower c) = true
  · have h1 : normalizeChar c = pyCharLower c := by
      unfold normalizeChar
      rw [if_pos h]
    rw [h1]
    have h2 : pyCharLower (pyCharLower c) = pyCharLower c :=
      pyCharLower_of_not_upper (isAsciiUpper_pyCharLower c)
    unfold normalizeChar
    rw [h2, if_pos h]
  · have h1 : normalizeChar c = '_' := by
      unfold normalizeChar
      rw [if_neg h]
    rw [h1]
    decide

/-- C7: `normalize` is idempotent — normalizing an already-normalized string
yields the same string — and its output consists only of characters from the
safe tag alphabet `[a-z0-9_]`. -/
theorem normalize_idempotent_and_alphabet (s : String) :
    normalize (normalize s) = normalize s
      ∧ ∀ c ∈ (normalize s).data, tagAlphabet c = true := by
  constructor
  · show String.mk (List.map normalizeChar (s.data.map normalizeChar))
      = String.mk (s.data.map normalizeChar)
    rw [List.map_map]
    exact congrArg String.mk (List.map_congr_left (fun c _ => normalizeChar_idem c))
  · intro c hc
    have : c ∈ s.data.map normalizeChar := hc
    obtain ⟨a, _, rfl⟩ := List.mem_map.mp this
    exact tagAlphabet_normalizeChar a

/-- C8: `normalize` preserves the length of its input (it rewrites characters
in place). -/
theorem normalize_length (s : String) : (normalize s).length = s.length := by
  show (s.data.map normalizeChar).length = s.data.length
  exact List.length_map s.data normalizeChar

/-! ## Digit strings -/

theorem isAsciiDigit_digitChar (d : Nat) : isAsciiDigit (digitChar d) = true := by
  unfold digitChar
  repeat' split
  all_goals decide

theorem natToStrCore_digits :
    ∀ fuel n acc, (∀ c ∈ acc, isAsciiDigit c = true) →
      ∀ c ∈ natToStrCore fuel n acc, isAsciiDigit c = true := by
  intro fuel
  induction fuel with
  | zero => exact fun n acc hacc c hc => hacc c hc
  | succ fuel ih =>
    intro n acc hacc c hc
    unfold natToStrCore at hc
    by_cases h : n / 10 = 0
    · rw [if_pos h] at hc
      rcases List.mem_cons.mp hc with h1 | h1
      · rw [h1]
        exact isAsciiDigit_digitChar _
      · exact hacc c h1
    · rw [if_neg h] at hc
      refine ih (n / 10) _ ?_ c hc
      intro d hd
      rcases List.mem_cons.mp hd with h1 | h1
      · rw [h1]
        exact isAsciiDigit_digitChar _
      · exact hacc d h1

theorem natToStr_digits (n : Nat) : ∀ c ∈ (natToStr n).data, isAsciiDigit c = true :=
  natToStrCore_digits (n + 1) n [] (fun c hc => absurd hc (List.not_mem_nil c))

theorem natToStrCore_ne_nil_of_acc :
    ∀ fuel n acc, acc ≠ [] → natToStrCore fuel n acc ≠ [] := by
  intro fuel
  induction fuel with
  | zero => exact fun n acc hacc => hacc
  | succ fuel ih =>
    intro n acc hacc
    unfold natToStrCore
    by_cases h : n / 10 = 0
    · rw [if_pos h]
      exact List.cons_ne_nil _ _
    · rw [if_neg h]
      exact ih (n / 10) _ (List.cons_ne_nil _ _)

theorem natToStr_ne_nil (n : Nat) : (natToStr n).data ≠ [] := by
  show natToStrCore (n + 1) n [] ≠ []
  unfold natToStrCore
  by_cases h : n / 10 = 0
  · rw [if_pos h]
    exact List.cons_ne_nil _ _
  · rw [if_neg h]
    exact natToStrCore_ne_nil_of_acc n (n / 10) _ (List.cons_ne_nil _ _)

theorem isAsciiDigit_ne_dash {c : Char} (h : isAsciiDigit c = true) : c ≠ '-' := by
  intro hc
  rw [hc] at h
  exact absurd h (by decide)

theorem natToStr_dashFree (n : Nat) : dashFree (natToStr n) := by
  intro hmem
  exact isAsciiDigit_ne_dash (natToStr_digits n _ hmem) rfl

theorem dashFree_append {a b : String} (ha : dashFree a) (hb : dashFree b) :
    dashFree (a ++ b) := by
  unfold dashFree at *
  rw [String.data_append]
  intro h
  rcases List.mem_append.mp h with h1 | h1
  · exact ha h1
  · exact hb h1

theorem joinNats_dashFree (t : List Nat) : dashFree (joinNats t) := by
  induction t with
  | nil => decide
  | cons n rest ih => exact dashFree_append (natToStr_dashFree n) ih

theorem tagAlphabet_ne_dash {c : Char} (h : tagAlphabet c = true) : c ≠ '-' := by
  intro hc
  rw [hc] at h
  exact absurd h (by decide)

theorem normalize_dashFree (s : String) : dashFree (normalize s) := by
  intro hmem
  exact tagAlphabet_ne_dash
    ((normalize_idempotent_and_alphabet s).2 _ hmem) rfl

/-! ## Splitting on a separator -/

theorem splitChar_of_not_mem {sep : Char} {l : List Char} (h : sep ∉ l) :
    splitChar sep l = [l] := by
  induction l with
  | nil => rfl
  | cons c rest ih =>
    have hc : ¬ c = sep := fun hc => h (List.mem_cons.mpr (Or.inl hc.symm))
    have hm : sep ∉ rest := fun hm => h (List.mem_cons_of_mem c hm)
    conv_lhs => rw [splitChar]
    rw [if_neg hc, ih hm]

theorem splitChar_append_sep {sep : Char} {l r : List Char} (h : sep ∉ l) :
    splitChar sep (l ++ sep :: r) = l :: splitChar sep r := by
  induction l with
  | nil =>
    show splitChar sep (sep :: r) = [] :: splitChar sep r
    conv_lhs => rw [splitChar]
    rw [if_pos rfl]
  | cons c rest ih =>
    have hc : ¬ c = sep := fun hc => h (List.mem_cons.mpr (Or.inl hc.symm))
    have hm : sep ∉ rest := fun hm => h (List.mem_cons_of_mem c hm)
    show splitChar sep (c :: (rest ++ sep :: r)) = (c :: rest) :: splitChar sep r
    conv_lhs => rw [splitChar]
    rw [if_neg hc, ih hm]

theorem splitChar_mem_subset {sep : Char} :
    ∀ l : List Char, ∀ p ∈ splitChar sep l, ∀ c ∈ p, c ∈ l := by
  intro l
  induction l with
  | nil =>
    intro p hp c hc
    rcases List.mem_singleton.mp hp with rfl
    exact absurd hc (List.not_mem_nil c)
  | cons a rest ih =>
    intro p hp c hc
    unfold splitChar at hp
    by_cases ha : a = sep
    · rw [if_pos ha] at hp
      rcases List.mem_cons.mp hp with rfl | h1
      · exact absurd hc (List.not_mem_nil c)
      · exact List.mem_cons_of_mem a (ih p h1 c hc)
    · rw [if_neg ha] at hp
      rcases hq : splitChar sep rest with _ | ⟨q, qs⟩
      · rw [hq] at hp
        rcases List.mem_singleton.mp hp with rfl
        rcases List.mem_singleton.mp hc with rfl
        exact List.mem_cons_self c rest
      · rw [hq] at hp
        rcases List.mem_cons.mp hp with rfl | h1
        · rcases List.mem_cons.mp hc with rfl | h2
          · exact List.mem_cons_self c rest
          · refine List.mem_cons_of_mem a (ih q ?_ c h2)
            rw [hq]
            exact List.mem_cons_self q qs
        · refine List.mem_cons_of_mem a (ih p ?_ c hc)
          rw [hq]
          exact List.mem_cons_of_mem q h1

/-- A tag whose three fields avoid the separator survives the
serialization round trip. -/
theorem roundTrips_of_dashFree {t : PyTag}
    (h1 : dashFree t.1) (h2 : dashFree t.2.1) (h3 : dashFree t.2.2) :
    roundTrips t := by
  obtain ⟨a, b, c⟩ := t
  unfold roundTrips joinTag splitTag pySplit
  have hdata : (a ++ "-" ++ b ++ "-" ++ c).data
      = a.data ++ '-' :: (b.data ++ '-' :: c.data) := by
    simp [String.data_append]
  rw [hdata, splitChar_append_sep h1, splitChar_append_sep h2, splitChar_of_not_mem h3]
  rfl

/-! ## The live ABI-tag derivation (claims C2, C3, C6) -/

/-- C2 (counterexample): on a host without the specialized allocator
(pymalloc false), no debug, narrow unicode and `SOABI` unset, the live
`get_abi_tag` returns `cp38m` — the `'m'` character appears even though the
allocator flag is false — while the spec's flag rule prescribes `cp38`. -/
theorem get_abi_tag_always_m_cex :
    get_abi_tag envNoPymalloc none = Except.ok (some ("cp38m"))
      ∧ spec_abi_tag envNoPymalloc = "cp38"
      ∧ ("cp38m" : String) ≠ "cp38" :=
  ⟨rfl, rfl, by decide⟩

/-- C2 (amended): when `SOABI` reads back unset (or empty), `get_abi_tag`
returns the family abbreviation and implementation version followed by
`'d'` iff the debug flag, the literal `'m'` unconditionally (the allocator
flag is never consulted), and `'u'` iff the wide-unicode flag. -/
theorem get_abi_tag_soabi_unset (e : Env) (soabiOpt : Option String)
    (hread : e.soabiRead = ReadResult.val soabiOpt)
    (hunset : soabiOpt.getD ("") = "") :
    get_abi_tag e none = Except.ok (some (get_abbr_impl e ++ get_impl_ver e
      ++ (if e.pydebug then "d" else "") ++ "m"
      ++ (if e.wideUnicode then "u" else ""))) := by
  unfold get_abi_tag
  rw [hread]
  simp only [hunset, if_pos]

/-- Witness for the amended C2, at the concrete pymalloc-free host. -/
theorem get_abi_tag_soabi_unset_witness :
    get_abi_tag envNoPymalloc none = Except.ok (some (get_abbr_impl envNoPymalloc
      ++ get_impl_ver envNoPymalloc
      ++ (if envNoPymalloc.pydebug then "d" else "") ++ "m"
      ++ (if envNoPymalloc.wideUnicode then "u" else ""))) :=
  get_abi_tag_soabi_unset envNoPymalloc none rfl rfl

/-- C3 (counterexample): for the reported signature `pypy-41` — set, and not
prefixed by `cpython-` — the live `get_abi_tag` returns `None` (its
`default`), not the transliteration `pypy_41` the claim prescribes. -/
theorem get_abi_tag_no_transliteration_cex :
    get_abi_tag envPypySoabi none = Except.ok none
      ∧ normalize ("pypy-41") = "pypy_41"
      ∧ (none : Option String) ≠ some (normalize ("pypy-41")) :=
  ⟨rfl, rfl, by decide⟩

/-- C3 (amended): when the host reports a non-empty ABI signature that does
not start with the `cpython-` marker, `get_abi_tag` returns its `default`
argument (`None` when not supplied) — the signature is dropped, not
transliterated. -/
theorem get_abi_tag_foreign_soabi_default (e : Env) (s : String) (d : Option String)
    (hread : e.soabiRead = ReadResult.val (some s))
    (hne : ¬ s = "")
    (hcp : pyStartsWith s ("cpython-") = false) :
    get_abi_tag e d = Except.ok d := by
  unfold get_abi_tag
  rw [hread]
  simp only [Option.getD_some, hne, hcp, if_neg, if_false, Bool.false_eq_true,
    ite_false]

/-- Witness for the amended C3: the `pypy-41` host with an explicit default
gets that default back. -/
theorem get_abi_tag_foreign_soabi_default_witness :
    get_abi_tag envPypySoabi (some ("dflt")) = Except.ok (some ("dflt")) :=
  get_abi_tag_foreign_soabi_default envPypySoabi ("pypy-41") (some ("dflt"))
    rfl (by decide) (by decide)

/-- C6 (counterexample): when reading the `SOABI` configuration value raises
`IOError`, the live `get_abi_tag` propagates the exception instead of
degrading to the fallback with a warning. -/
theorem get_abi_tag_raises_on_read_error_cex :
    get_abi_tag envReadErr none = Except.error PyErr.ioError :=
  rfl

/-- C6 (amended): the guarded reader `get_config_var` never propagates a
read error (it degrades to `None`), but the live `get_abi_tag` reads
`SOABI` through the raw interface: it raises exactly when that read
errors, and succeeds on every other host. -/
theorem get_abi_tag_read_error_behavior (e : Env) (d : Option String) :
    (e.soabiRead = ReadResult.err → get_abi_tag e d = Except.error PyErr.ioError)
      ∧ (e.soabiRead ≠ ReadResult.err → ∃ v, get_abi_tag e d = Except.ok v)
      ∧ get_config_var ReadResult.err = none := by
  refine ⟨?_, ?_, rfl⟩
  · intro h
    unfold get_abi_tag
    rw [h]
  · intro h
    cases hs : e.soabiRead with
    | err => exact absurd hs h
    | val v =>
      simp only [get_abi_tag, hs]
      exact ⟨_, rfl⟩

/-- Witness for the amended C6: a host whose `SOABI` read succeeds gets a
successful ABI-tag computation. -/
theorem get_abi_tag_read_error_behavior_witness :
    ∃ v, get_abi_tag envScenario none = Except.ok v :=
  (get_abi_tag_read_error_behavior envScenario none).2.1 (by decide)

/-! ## The fixed 3.8/linux enumeration scenario (claim C4) -/

/-- C4 (counterexample): on the claimed host (default family, version `38`,
no native ABI signature, debug false, pymalloc true, wide unicode true,
platform `linux-x86_64`), with `versions` absent and `noarch` false, the
first emitted tag carries the distribution-qualified platform
`linux_x86_64_unknown_distribution_unknown_version` — not `linux_x86_64` —
and the last four tags are `py33`/`py32`/`py31`/`py30` generic tags, not the
`cp38`/`cp3`/`py38`/`py3` quadruple the claim states. -/
theorem scenario_first_last_cex :
    (get_supported envScenario none false).map
        (fun l => (l.head?, l.drop (l.length - 4)))
      = Except.ok (some ("cp38", "cp38mu",
            "linux_x86_64_unknown_distribution_unknown_version"),
          [("py33", "none", "any"), ("py32", "none", "any"),
           ("py31", "none", "any"), ("py30", "none", "any")])
      ∧ ("linux_x86_64_unknown_distribution_unknown_version" : String) ≠ "linux_x86_64"
      ∧ (("py33", "none", "any") : PyTag) ≠ ("cp38", "none", "any") :=
  ⟨rfl, by decide, by decide⟩

/-- C4 (amended): the full enumeration of the claimed host, with `versions`
absent and `noarch` false: the exact-build tier over the synthesized ABI
`cp38mu` and the three platforms (distribution-qualified first, `any` last),
the ABI-agnostic `py3` tag, the implementation-specific pure tier for the
derived fallback versions `38..30` (with `cp3` spliced in after the first),
and the generic pure tier (with `py3` spliced in after the first). -/
theorem scenario_enumeration :
    get_supported envScenario none false = Except.ok
      [("cp38", "cp38mu", "linux_x86_64_unknown_distribution_unknown_version"),
       ("cp38", "cp38mu", "linux_x86_64"),
       ("cp38", "cp38mu", "any"),
       ("cp38", "none", "linux_x86_64_unknown_distribution_unknown_version"),
       ("cp38", "none", "linux_x86_64"),
       ("cp38", "none", "any"),
       ("py3", "none", "any"),
       ("cp38", "none", "any"),
       ("cp3", "none", "any"),
       ("cp37", "none", "any"),
       ("cp36", "none", "any"),
       ("cp35", "none", "any"),
       ("cp34", "none", "any"),
       ("cp33", "none", "any"),
       ("cp32", "none", "any"),
       ("cp31", "none", "any"),
       ("cp30", "none", "any"),
       ("py38", "none", "any"),
       ("py3", "none", "any"),
       ("py37", "none", "any"),
       ("py36", "none", "any"),
       ("py35", "none", "any"),
       ("py34", "none", "any"),
       ("py33", "none", "any"),
       ("py32", "none", "any"),
       ("py31", "none", "any"),
       ("py30", "none", "any")] :=
  rfl

/-! ## The darwin architecture-compatibility expansion (claim C9) -/

/-- C9: any platform identifier that parses as `name_10_9_x86_64` expands to
exactly the tags `name_10_m_a` for every minor `m` from `9` down to `0` (in
that strictly descending order, the reported minor first) and every
compatible encoding `a` of `x86_64` — which are, in emission order,
`x86_64`, `intel`, `fat3`, `fat64` and `universal`; in particular the list
contains `name_10_m_x86_64`, `name_10_m_intel`, `name_10_m_fat3` and
`name_10_m_universal` for each such `m`. -/
theorem darwin_expansion_structure (arch name : String)
    (h : osx_match arch = some (name, "10", "9", "x86_64")) :
    darwin_expand_arch arch
      = ((List.range 10).reverse).flatMap (fun m =>
          ["x86_64", "intel", "fat3", "fat64", "universal"].map (fun a =>
            name ++ "_" ++ "10" ++ "_" ++ natToStr m ++ "_" ++ a)) := by
  unfold darwin_expand_arch
  rw [h]
  rfl

/-- Witness for C9 at the spec's base platform `examplarch_10_9_x86_64`. -/
theorem darwin_expansion_structure_witness :
    osx_match ("examplarch_10_9_x86_64")
        = some ("examplarch", "10", "9", "x86_64")
      ∧ darwin_expand_arch ("examplarch_10_9_x86_64")
        = ((List.range 10).reverse).flatMap (fun m =>
            ["x86_64", "intel", "fat3", "fat64", "universal"].map (fun a =>
              "examplarch" ++ "_" ++ "10" ++ "_" ++ natToStr m ++ "_" ++ a)) :=
  ⟨by decide, darwin_expansion_structure _ ("examplarch") (by decide)⟩

/-! ## Evaluation lemmas for `get_supported` -/

theorem abi_read_err {e : Env} (d : Option String) (hs : e.soabiRead = ReadResult.err) :
    get_abi_tag e d = Except.error PyErr.ioError := by
  unfold get_abi_tag
  rw [hs]

theorem abi_read_ok {e : Env} (d : Option String) {v : Option String}
    (hs : e.soabiRead = ReadResult.val v) : ∃ w, get_abi_tag e d = Except.ok w := by
  simp only [get_abi_tag, hs]
  exact ⟨_, rfl⟩

theorem implTier_ok {v0 : String} {c : Char} {cs : List Char} (pre : String)
    (rest : List String) (hd : v0.data = c :: cs) :
    implTier pre (v0 :: rest) = Except.ok (implTierList pre v0 c rest) := by
  simp only [implTier, implTierList, hd]

theorem implTier_err {v0 : String} (pre : String) (rest : List String)
    (hd : v0.data = []) :
    implTier pre (v0 :: rest) = Except.error PyErr.indexError := by
  simp only [implTier, hd]

theorem binaryTiers_ok {e : Env} {impl : String} {abis : List String} {v0 : String}
    {c : Char} {cs : List Char} (rest : List String) (hd : v0.data = c :: cs) :
    binaryTiers e impl abis (v0 :: rest) = Except.ok
      (abis.flatMap (fun abi =>
        (pyArches e).map (fun arch => (impl ++ v0, abi, arch)))
       ++ [("py" ++ String.singleton c, "none", (pyArches e).getLastD (""))]) := by
  simp only [binaryTiers, hd]

theorem binaryTiers_err_nil (e : Env) (impl : String) (abis : List String) :
    binaryTiers e impl abis [] = Except.error PyErr.indexError :=
  rfl

theorem binaryTiers_err_empty {e : Env} {impl : String} {abis : List String}
    {v0 : String} (rest : List String) (hd : v0.data = []) :
    binaryTiers e impl abis (v0 :: rest) = Except.error PyErr.indexError := by
  simp only [binaryTiers, hd]

theorem get_supported_read_err (e : Env) (va : Option (List String)) (noarch : Bool)
    (hs : e.soabiRead = ReadResult.err) :
    get_supported e va noarch = Except.error PyErr.ioError := by
  simp only [get_supported, abi_read_err none hs]

theorem get_supported_eval (e : Env) (va : Option (List String)) (noarch : Bool)
    {w : Option String} (hw : get_abi_tag e none = Except.ok w)
    {v0 : String} {rest : List String} (hv : actualVersions e va = v0 :: rest)
    {c : Char} {cs : List Char} (hd : v0.data = c :: cs) :
    get_supported e va noarch = Except.ok
      ((if noarch then [] else binaryTierList e w v0 c)
        ++ implTierList (get_abbr_impl e) v0 c rest
        ++ implTierList ("py") v0 c rest) := by
  cases noarch with
  | false =>
    simp only [get_supported, hv, hw, implTier_ok _ rest hd, binaryTiers_ok rest hd,
      binaryTierList, if_false, Bool.false_eq_true]
  | true =>
    simp only [get_supported, hv, hw, implTier_ok _ rest hd, if_true]

theorem get_supported_nil_versions (e : Env) (va : Option (List String))
    {w : Option String} (hw : get_abi_tag e none = Except.ok w)
    (hv : actualVersions e va = []) :
    get_supported e va false = Except.error PyErr.indexError := by
  simp only [get_supported, hv, hw, binaryTiers_err_nil, if_false, Bool.false_eq_true]

theorem get_supported_nil_versions_noarch (e : Env) (va : Option (List String))
    {w : Option String} (hw : get_abi_tag e none = Except.ok w)
    (hv : actualVersions e va = []) :
    get_supported e va true = Except.ok [] := by
  simp only [get_supported, hv, hw, implTier, if_true]
  rfl

theorem get_supported_empty_v0 (e : Env) (va : Option (List String)) (noarch : Bool)
    {w : Option String} (hw : get_abi_tag e none = Except.ok w)
    {v0 : String} {rest : List String} (hv : actualVersions e va = v0 :: rest)
    (hd : v0.data = []) :
    get_supported e va noarch = Except.error PyErr.indexError := by
  cases noarch with
  | false =>
    simp only [get_supported, hv, hw, binaryTiers_err_empty rest hd, if_false,
      Bool.false_eq_true]
  | true =>
    simp only [get_supported, hv, hw, implTier_err _ rest hd, if_true]

/-! ## Separator-freeness of everything `get_supported` emits -/

theorem mem_insertSorted {x y : String} {l : List String}
    (h : x ∈ insertSorted y l) : x = y ∨ x ∈ l := by
  induction l with
  | nil => exact Or.inl (List.mem_singleton.mp h)
  | cons z zs ih =>
    unfold insertSorted at h
    by_cases hle : strLe y z = true
    · rw [if_pos hle] at h
      rcases List.mem_cons.mp h with h1 | h1
      · exact Or.inl h1
      · exact Or.inr h1
    · rw [if_neg hle] at h
      rcases List.mem_cons.mp h with h1 | h1
      · exact Or.inr (h1 ▸ List.mem_cons_self z zs)
      · rcases ih h1 with h2 | h2
        · exact Or.inl h2
        · exact Or.inr (List.mem_cons_of_mem z h2)

theorem mem_sortStrings {x : String} {l : List String}
    (h : x ∈ sortStrings l) : x ∈ l := by
  induction l with
  | nil => exact absurd h (List.not_mem_nil x)
  | cons y ys ih =>
    rcases mem_insertSorted h with h1 | h1
    · exact h1 ▸ List.mem_cons_self y ys
    · exact List.mem_cons_of_mem y (ih h1)

theorem mem_distinctList {x : String} {l : List String}
    (h : x ∈ distinctList l) : x ∈ l := by
  induction l with
  | nil => exact absurd h (List.not_mem_nil x)
  | cons y ys ih =>
    unfold distinctList at h
    by_cases hy : y ∈ ys
    · rw [if_pos hy] at h
      exact List.mem_cons_of_mem y (ih h)
    · rw [if_neg hy] at h
      rcases List.mem_cons.mp h with h1 | h1
      · exact h1 ▸ List.mem_cons_self y ys
      · exact List.mem_cons_of_mem y (ih h1)

theorem pySplit_getD_dashFree {s : String} (h : dashFree s) :
    dashFree ((pySplit '.' s).getD 1 ("")) := by
  unfold pySplit
  rcases hq : splitChar '.' s.data with _ | ⟨p0, ps⟩
  · exact fun hc => absurd hc (List.not_mem_nil _)
  · rcases ps with _ | ⟨p1, pt⟩
    · exact fun hc => absurd hc (List.not_mem_nil _)
    · show dashFree (String.mk p1)
      intro hc
      refine h (@splitChar_mem_subset '.' s.data p1 ?_ '-' hc)
      rw [hq]
      exact List.mem_cons_of_mem p0 (List.mem_cons_self p1 pt)

theorem osxMatchRest_subset {r b c d : List Char}
    (h : osxMatchRest r = some (b, c, d)) :
    (∀ x ∈ b, x ∈ r) ∧ (∀ x ∈ c, x ∈ r) ∧ ∀ x ∈ d, x ∈ r := by
  unfold osxMatchRest at h
  dsimp only at h
  split at h
  · simp at h
  · split at h
    · rename_i r2 hr1
      have hr2 : ∀ x ∈ r2, x ∈ r := by
        intro x hx
        refine (List.dropWhile_sublist isAsciiDigit).subset ?_
        rw [hr1]
        exact List.mem_cons_of_mem _ hx
      split at h
      · simp at h
      · split at h
        · rename_i d0 hr3
          have hd : ∀ x ∈ d0, x ∈ r2 := by
            intro x hx
            refine (List.dropWhile_sublist isAsciiDigit).subset ?_
            rw [hr3]
            exact List.mem_cons_of_mem _ hx
          split at h
          · simp at h
          · simp only [Option.some.injEq, Prod.mk.injEq] at h
            obtain ⟨hb, hc, hd0⟩ := h
            subst hb
            subst hc
            subst hd0
            refine ⟨?_, ?_, ?_⟩
            · exact fun x hx => (List.takeWhile_sublist isAsciiDigit).subset hx
            · exact fun x hx =>
                hr2 x ((List.takeWhile_sublist isAsciiDigit).subset hx)
            · exact fun x hx => hr2 x (hd x hx)
        · simp at h
    · simp at h

theorem osx_match_subset {s name major minor actual : String}
    (h : osx_match s = some (name, major, minor, actual)) :
    (∀ x ∈ name.data, x ∈ s.data) ∧ (∀ x ∈ major.data, x ∈ s.data)
      ∧ (∀ x ∈ minor.data, x ∈ s.data) ∧ ∀ x ∈ actual.data, x ∈ s.data := by
  unfold osx_match at h
  dsimp only at h
  obtain ⟨i, _, hf⟩ := List.exists_of_findSome?_eq_some h
  rcases hm : osxMatchRest (s.data.drop (i + 1)) with _ | ⟨b, c, d⟩ <;> rw [hm] at hf
  · simp at hf
  · obtain ⟨hb, hc, hd⟩ := osxMatchRest_subset hm
    simp only [Option.map_some', Option.some.injEq, Prod.mk.injEq] at hf
    obtain ⟨h1, h2, h3, h4⟩ := hf
    subst h1
    subst h2
    subst h3
    subst h4
    refine ⟨?_, ?_, ?_, ?_⟩
    · exact fun x hx => List.take_subset i s.data hx
    · exact fun x hx => List.drop_subset (i + 1) s.data (hb x hx)
    · exact fun x hx => List.drop_subset (i + 1) s.data (hc x hx)
    · exact fun x hx => List.drop_subset (i + 1) s.data (hd x hx)

theorem mem_ite_singleton {P : Prop} [Decidable P] {a x : String}
    (h : a ∈ if P then [x] else []) : a = x := by
  split at h
  · exact List.mem_singleton.mp h
  · exact absurd h (List.not_mem_nil a)

theorem darwin_arches_cases {actual a : String} (h : a ∈ darwin_arches actual) :
    a = actual ∨ a ∈ ["fat", "intel", "fat3", "fat64", "universal"] := by
  unfold darwin_arches at h
  rcases List.mem_append.mp h with h1 | h1
  rcases List.mem_append.mp h1 with h1 | h1
  rcases List.mem_append.mp h1 with h1 | h1
  rcases List.mem_append.mp h1 with h1 | h1
  rcases List.mem_append.mp h1 with h1 | h1
  · exact Or.inl (List.mem_singleton.mp h1)
  · exact Or.inr (by rw [mem_ite_singleton h1]; decide)
  · exact Or.inr (by rw [mem_ite_singleton h1]; decide)
  · exact Or.inr (by rw [mem_ite_singleton h1]; decide)
  · exact Or.inr (by rw [mem_ite_singleton h1]; decide)
  · exact Or.inr (by rw [mem_ite_singleton h1]; decide)

theorem darwin_expand_arch_dashFree {arch : String} (h : dashFree arch) :
    ∀ p ∈ darwin_expand_arch arch, dashFree p := by
  intro p hp
  unfold darwin_expand_arch at hp
  rcases hm : osx_match arch with _ | ⟨name, major, minor, actual⟩ <;> rw [hm] at hp
  · rw [List.mem_singleton.mp hp]
    exact h
  · obtain ⟨hn, hmj, _, hac⟩ := osx_match_subset hm
    obtain ⟨m, _, hp2⟩ := List.mem_flatMap.mp hp
    obtain ⟨a, ha1, rfl⟩ := List.mem_map.mp hp2
    have hda : dashFree a := by
      rcases darwin_arches_cases ha1 with rfl | hlit
      · exact fun hc => h (hac '-' hc)
      · have hall : ∀ y ∈ (["fat", "intel", "fat3", "fat64", "universal"] : List String),
            dashFree y := by decide
        exact hall a hlit
    have h1 : dashFree name := fun hc => h (hn '-' hc)
    have h2 : dashFree major := fun hc => h (hmj '-' hc)
    have hu : dashFree ("_") := by decide
    exact dashFree_append (dashFree_append (dashFree_append (dashFree_append
      (dashFree_append (dashFree_append h1 hu) h2) hu) (natToStr_dashFree m)) hu) hda

theorem restPlatforms_dashFree (e : Env) : ∀ p ∈ restPlatforms e, dashFree p := by
  intro p hp
  unfold restPlatforms at hp
  dsimp only at hp
  rcases List.mem_append.mp hp with h1 | h1
  · rw [List.mem_singleton.mp h1]
    exact normalize_dashFree _
  · rcases hsp : get_specific_platform e with _ | ⟨dist, major, full, stab⟩ <;>
      rw [hsp] at h1 <;> dsimp only at h1
    · split at h1
      · rw [List.mem_singleton.mp h1]
        exact normalize_dashFree _
      · exact absurd h1 (List.not_mem_nil p)
    · rcases List.mem_append.mp h1 with h2 | h2
      · rw [List.mem_singleton.mp h2]
        exact normalize_dashFree _
      · rw [mem_ite_singleton h2]
        exact normalize_dashFree _

theorem get_platforms_dashFree (e : Env) : ∀ p ∈ get_platforms e, dashFree p := by
  intro p hp
  unfold get_platforms at hp
  rw [List.mem_reverse] at hp
  rcases List.mem_cons.mp hp with rfl | h1
  · decide
  · exact restPlatforms_dashFree e p h1

theorem pyArches_dashFree (e : Env) : ∀ p ∈ pyArches e, dashFree p := by
  intro p hp
  unfold pyArches at hp
  obtain ⟨arch, harch, hp2⟩ := List.mem_flatMap.mp hp
  by_cases hd : e.sysPlatform = "darwin"
  · rw [if_pos hd] at hp2
    exact darwin_expand_arch_dashFree (get_platforms_dashFree e arch harch) p hp2
  · rw [if_neg hd] at hp2
    rw [List.mem_singleton.mp hp2]
    exact get_platforms_dashFree e arch harch

theorem pyArches_getLastD (e : Env) : (pyArches e).getLastD ("") = "any" := by
  unfold pyArches get_platforms
  rw [List.reverse_cons, List.flatMap_append]
  have hone : (["any"] : List String).flatMap (fun arch =>
      if e.sysPlatform = "darwin" then darwin_expand_arch arch else [arch])
      = (if e.sysPlatform = "darwin" then darwin_expand_arch ("any") else ["any"]) := by
    simp
  rw [hone]
  have hany : (if e.sysPlatform = "darwin" then darwin_expand_arch ("any") else ["any"])
      = ["any"] := by
    split
    · rfl
    · rfl
  rw [hany]
  exact List.getLastD_concat _ _ _

theorem dashFree_none : dashFree ("none") := by decide

theorem dashFree_any : dashFree ("any") := by decide

theorem get_abbr_impl_dashFree (e : Env) : dashFree (get_abbr_impl e) := by
  unfold get_abbr_impl
  split_ifs
  · exact dashFree_append (by decide) (natToStr_dashFree _)
  · decide
  · decide
  · decide

theorem get_impl_ver_dashFree (e : Env)
    (hnodot : ∀ s, e.pyVersionNodotRead = ReadResult.val (some s) → dashFree s) :
    dashFree (get_impl_ver e) := by
  unfold get_impl_ver
  rcases hv : get_config_var e.pyVersionNodotRead with _ | s
  · exact joinNats_dashFree _
  · dsimp only
    split
    · exact joinNats_dashFree _
    · refine hnodot s ?_
      unfold get_config_var at hv
      rcases hr : e.pyVersionNodotRead with v | _ <;> rw [hr] at hv
      · dsimp only at hv
        rw [hv]
      · exact absurd hv (by simp)

theorem live_abi_dashFree {e : Env} {x : String}
    (hw : get_abi_tag e none = Except.ok (some x))
    (hnodot : ∀ s, e.pyVersionNodotRead = ReadResult.val (some s) → dashFree s)
    (hsoabi : ∀ s, e.soabiRead = ReadResult.val (some s) → dashFree (afterFirstDash s)) :
    dashFree x := by
  unfold get_abi_tag at hw
  rcases hr : e.soabiRead with v | _ <;> rw [hr] at hw
  · dsimp only at hw
    simp only [Except.ok.injEq] at hw
    split at hw
    · simp only [Option.some.injEq] at hw
      subst hw
      have hdu : dashFree (if e.pydebug then "d" else "") := by
        split
        · decide
        · decide
      have huu : dashFree (if e.wideUnicode then "u" else "") := by
        split
        · decide
        · decide
      exact dashFree_append (dashFree_append (dashFree_append (dashFree_append
        (get_abbr_impl_dashFree e) (get_impl_ver_dashFree e hnodot)) hdu)
        (by decide)) huu
    · split at hw
      · simp only [Option.some.injEq] at hw
        subst hw
        rcases v with _ | s
        · rename_i hne _
          exact absurd rfl hne
        · exact dashFree_append (by decide) (hsoabi s hr)
      · exact absurd hw (by simp)
  · simp at hw

theorem pyAbis_dashFree {e : Env} {w : Option String}
    (hw : get_abi_tag e none = Except.ok w)
    (hnodot : ∀ s, e.pyVersionNodotRead = ReadResult.val (some s) → dashFree s)
    (hsoabi : ∀ s, e.soabiRead = ReadResult.val (some s) → dashFree (afterFirstDash s))
    (hsuf : ∀ s ∈ e.extSuffixes, dashFree s) :
    ∀ a ∈ pyAbis e w, dashFree a := by
  intro a ha
  unfold pyAbis at ha
  rcases List.mem_append.mp ha with h1 | h1
  · rcases List.mem_append.mp h1 with h2 | h2
    · rcases w with _ | x
      · exact absurd h2 (List.not_mem_nil a)
      · dsimp only at h2
        split at h2
        · exact absurd h2 (List.not_mem_nil a)
        · rw [List.mem_singleton.mp h2]
          exact live_abi_dashFree hw hnodot hsoabi
    · unfold abi3Set at h2
      obtain ⟨s, hs1, hs2⟩ := List.mem_map.mp (mem_distinctList (mem_sortStrings h2))
      rw [← hs2]
      exact pySplit_getD_dashFree (hsuf s (List.mem_of_mem_filter hs1))
  · rw [List.mem_singleton.mp h1]
    decide

theorem implTierList_dashFree {pre v0 : String} {c : Char} {cs : List Char}
    {rest : List String} (hpre : dashFree pre) (hv0 : dashFree v0)
    (hd : v0.data = c :: cs) (hrest : ∀ v ∈ rest, dashFree v) :
    ∀ t ∈ implTierList pre v0 c rest,
      dashFree t.1 ∧ dashFree t.2.1 ∧ dashFree t.2.2 := by
  have hsing : dashFree (String.singleton c) := by
    intro hm
    rcases List.mem_singleton.mp hm with rfl
    refine hv0 ?_
    rw [hd]
    exact List.mem_cons_self _ _
  intro t ht
  unfold implTierList at ht
  rcases List.mem_cons.mp ht with rfl | ht1
  · exact ⟨dashFree_append hpre hv0, dashFree_none, dashFree_any⟩
  rcases List.mem_cons.mp ht1 with rfl | ht2
  · exact ⟨dashFree_append hpre hsing, dashFree_none, dashFree_any⟩
  obtain ⟨v, hv1, rfl⟩ := List.mem_map.mp ht2
  exact ⟨dashFree_append hpre (hrest v hv1), dashFree_none, dashFree_any⟩

theorem binaryTierList_dashFree {e : Env} {w : Option String} {v0 : String}
    {c : Char} {cs : List Char}
    (habi : ∀ a ∈ pyAbis e w, dashFree a) (hv0 : dashFree v0)
    (hd : v0.data = c :: cs) :
    ∀ t ∈ binaryTierList e w v0 c,
      dashFree t.1 ∧ dashFree t.2.1 ∧ dashFree t.2.2 := by
  have hsing : dashFree (String.singleton c) := by
    intro hm
    rcases List.mem_singleton.mp hm with rfl
    refine hv0 ?_
    rw [hd]
    exact List.mem_cons_self _ _
  intro t ht
  unfold binaryTierList at ht
  rcases List.mem_append.mp ht with h1 | h1
  · obtain ⟨abi, ha, h2⟩ := List.mem_flatMap.mp h1
    obtain ⟨arch, harch, rfl⟩ := List.mem_map.mp h2
    exact ⟨dashFree_append (get_abbr_impl_dashFree e) hv0, habi abi ha,
      pyArches_dashFree e arch harch⟩
  · rcases List.mem_singleton.mp h1 with rfl
    refine ⟨dashFree_append (by decide) hsing, dashFree_none, ?_⟩
    show dashFree ((pyArches e).getLastD (""))
    rw [pyArches_getLastD e]
    decide

/-! ## Totality of the derived-version enumeration (claim C10) -/

theorem deriveVersions_ne_nil (e : Env) : deriveVersions e ≠ [] := by
  unfold deriveVersions
  dsimp only
  intro h
  have hlen := congrArg List.length h
  simp [List.length_reverse, List.length_range] at hlen

theorem joinNats_cons_ne_nil (n : Nat) (t : List Nat) : (joinNats (n :: t)).data ≠ [] := by
  show (natToStr n ++ joinNats t).data ≠ []
  rw [String.data_append]
  intro h
  rcases List.append_eq_nil.mp h with ⟨h1, _⟩
  exact natToStr_ne_nil n h1

theorem deriveVersions_mem_ne_nil (e : Env) :
    ∀ v ∈ deriveVersions e, v.data ≠ [] := by
  intro v hv
  unfold deriveVersions at hv
  dsimp only at hv
  obtain ⟨m, _, rfl⟩ := List.mem_map.mp hv
  show (joinNats ((get_impl_version_info e).dropLast ++ [m])).data ≠ []
  unfold get_impl_version_info
  split
  · exact joinNats_cons_ne_nil _ _
  · exact joinNats_cons_ne_nil _ _

/-- C10: when `get_supported` is called with `versions` absent, the derived
fallback list is never empty (the minor-version countdown always yields at
least the minor-0 entry, and every entry is a non-empty digit string), so no
`versions[0]` or `versions[0][0]` access can raise: the call never ends in
`IndexError`, and it succeeds outright whenever the `SOABI` configuration
read does not error. -/
theorem derived_versions_nonempty_total (e : Env) (noarch : Bool) :
    deriveVersions e ≠ []
      ∧ get_supported e none noarch ≠ Except.error PyErr.indexError
      ∧ (e.soabiRead ≠ ReadResult.err →
          ∃ l, get_supported e none noarch = Except.ok l) := by
  have hmain : ∀ v : Option String, e.soabiRead = ReadResult.val v →
      ∃ l, get_supported e none noarch = Except.ok l := by
    intro v hv
    obtain ⟨w, hw⟩ := abi_read_ok none hv
    rcases hd : deriveVersions e with _ | ⟨v0, rest⟩
    · exact absurd hd (deriveVersions_ne_nil e)
    · have hv0 : v0.data ≠ [] := by
        refine deriveVersions_mem_ne_nil e v0 ?_
        rw [hd]
        exact List.mem_cons_self v0 rest
      rcases hc : v0.data with _ | ⟨c, cs⟩
      · exact absurd hc hv0
      · exact ⟨_, get_supported_eval e none noarch hw hd hc⟩
  refine ⟨deriveVersions_ne_nil e, ?_, ?_⟩
  · rcases hs : e.soabiRead with v | _
    · obtain ⟨l, hl⟩ := hmain v hs
      rw [hl]
      simp
    · rw [get_supported_read_err e none noarch hs]
      simp
  · intro hne
    rcases hs : e.soabiRead with v | _
    · exact hmain v hs
    · exact absurd hs hne

/-- Witness for C10 at the concrete 3.8/linux host. -/
theorem derived_versions_nonempty_total_witness :
    ∃ l, get_supported envScenario none false = Except.ok l :=
  (derived_versions_nonempty_total envScenario false).2.2 (by decide)

/-! ## The ABI-agnostic boundary tag (claim C5) -/

theorem length_flatMap_mul {α β γ : Type} (abis : List α) (arches : List β)
    (g : α → β → γ) :
    (abis.flatMap (fun a => arches.map (g a))).length
      = abis.length * arches.length := by
  induction abis with
  | nil => simp
  | cons a as ih =>
    simp [List.flatMap_cons, List.length_append, ih, Nat.succ_mul, Nat.add_comm]

/-- C5: in every successful `get_supported` call with `noarch` false, the
tag right after the exact-build tier — at position `|abis| * |arches|` — is
the single `('py' + major digit, 'none', p)` tag, and its platform `p` is
`'any'`: the leftover loop variable `arch` always holds the last element of
`arches`, which is always the most-generic token `'any'`. -/
theorem abi_agnostic_boundary_tag (e : Env) (va : Option (List String))
    (l : List PyTag) (h : get_supported e va false = Except.ok l) :
    l.get? ((pyAbis e (liveAbiOpt e)).length * (pyArches e).length)
      = some ("py" ++ firstCharStr ((actualVersions e va).headD ("")), "none", "any") := by
  rcases hs : e.soabiRead with v | _
  · obtain ⟨w, hw⟩ := abi_read_ok none hs
    rcases hv : actualVersions e va with _ | ⟨v0, rest⟩
    · rw [get_supported_nil_versions e va hw hv] at h
      exact absurd h (by simp)
    · rcases hc : v0.data with _ | ⟨c, cs⟩
      · rw [get_supported_empty_v0 e va false hw hv hc] at h
        exact absurd h (by simp)
      · rw [get_supported_eval e va false hw hv hc] at h
        simp only [Except.ok.injEq] at h
        subst h
        have hlw : liveAbiOpt e = w := by
          unfold liveAbiOpt
          rw [hw]
        rw [hlw]
        simp only [Bool.false_eq_true, if_false, binaryTierList]
        rw [List.append_assoc, List.append_assoc]
        rw [show (pyAbis e w).length * (pyArches e).length
            = ((pyAbis e w).flatMap (fun abi => (pyArches e).map
              (fun arch => (get_abbr_impl e ++ v0, abi, arch)))).length
          from (length_flatMap_mul _ _ _).symm]
        rw [List.get?_append_right (Nat.le_refl _)]
        simp only [Nat.sub_self, List.singleton_append, List.get?_cons_zero,
          pyArches_getLastD, List.headD_cons, firstCharStr, hc]
  · rw [get_supported_read_err e va false hs] at h
    exact absurd h (by simp)

/-- Witness for C5: the concrete 3.8/linux host with an explicit version
list. -/
theorem abi_agnostic_boundary_tag_witness :
    ∃ l, get_supported envScenario (some ["38"]) false = Except.ok l
      ∧ l.get? ((pyAbis envScenario (liveAbiOpt envScenario)).length
            * (pyArches envScenario).length)
        = some ("py" ++ firstCharStr
            ((actualVersions envScenario (some ["38"])).headD ("")), "none", "any") :=
  ⟨_, rfl, abi_agnostic_boundary_tag envScenario (some ["38"]) _ rfl⟩

/-! ## The serialization round trip (claim C1) -/

/-- C1 (counterexample): on a host reporting the (realistic) multi-component
`SOABI = cpython-38-x86_64-linux-gnu`, the live `get_abi_tag` keeps
everything after the first dash, so `get_supported` emits tags whose ABI
field is `cp38-x86_64-linux-gnu` — it contains the separator, and joining
and re-splitting such a tag does not restore its three fields. -/
theorem round_trip_fails_cex :
    ∃ l, get_supported envDashSoabi (some ["38"]) false = Except.ok l
      ∧ ∃ t ∈ l, ¬ roundTrips t := by
  refine ⟨_, rfl, ?_⟩
  decide

/-- C1 (amended): every tag field other than the ABI is always free of the
`'-'` separator, and the ABI field is too provided the reported `SOABI`
carries no dash after the `cpython-` marker and the configured version
strings are dash-free; under those assumptions every produced tag survives
the join/split round trip.  (The counterexample shows the assumption on the
`SOABI` tail is necessary.) -/
theorem get_supported_round_trip (e : Env) (va : Option (List String))
    (noarch : Bool) (l : List PyTag) (h : get_supported e va noarch = Except.ok l)
    (hver : ∀ v ∈ actualVersions e va, dashFree v)
    (hnodot : ∀ s, e.pyVersionNodotRead = ReadResult.val (some s) → dashFree s)
    (hsoabi : ∀ s, e.soabiRead = ReadResult.val (some s) → dashFree (afterFirstDash s))
    (hsuf : ∀ s ∈ e.extSuffixes, dashFree s) :
    ∀ t ∈ l, roundTrips t := by
  rcases hs : e.soabiRead with v | _
  · obtain ⟨w, hw⟩ := abi_read_ok none hs
    rcases hv : actualVersions e va with _ | ⟨v0, rest⟩
    · cases noarch with
      | false =>
        rw [get_supported_nil_versions e va hw hv] at h
        exact absurd h (by simp)
      | true =>
        rw [get_supported_nil_versions_noarch e va hw hv] at h
        simp only [Except.ok.injEq] at h
        subst h
        intro t ht
        exact absurd ht (List.not_mem_nil t)
    · rcases hc : v0.data with _ | ⟨c, cs⟩
      · rw [get_supported_empty_v0 e va noarch hw hv hc] at h
        exact absurd h (by simp)
      · rw [get_supported_eval e va noarch hw hv hc] at h
        simp only [Except.ok.injEq] at h
        subst h
        intro t ht
        have hv0 : dashFree v0 := by
          refine hver v0 ?_
          rw [hv]
          exact List.mem_cons_self v0 rest
        have hrest : ∀ x ∈ rest, dashFree x := by
          intro x hx
          refine hver x ?_
          rw [hv]
          exact List.mem_cons_of_mem v0 hx
        have hfields : dashFree t.1 ∧ dashFree t.2.1 ∧ dashFree t.2.2 := by
          rcases List.mem_append.mp ht with h1 | h1
          · rcases List.mem_append.mp h1 with h2 | h2
            · cases noarch with
              | true =>
                simp only [if_true] at h2
                exact absurd h2 (List.not_mem_nil t)
              | false =>
                simp only [Bool.false_eq_true, if_false] at h2
                exact binaryTierList_dashFree
                  (pyAbis_dashFree hw hnodot hsoabi hsuf) hv0 hc t h2
            · exact implTierList_dashFree (get_abbr_impl_dashFree e) hv0 hc hrest t h2
          · exact implTierList_dashFree (by decide) hv0 hc hrest t h1
        exact roundTrips_of_dashFree hfields.1 hfields.2.1 hfields.2.2
  · rw [get_supported_read_err e va noarch hs] at h
    exact absurd h (by simp)

/-- Witness for the amended C1: the clean 3.8/linux host, whose whole
enumeration round-trips. -/
theorem get_supported_round_trip_witness :
    ∃ l, get_supported envScenario (some ["38"]) false = Except.ok l
      ∧ ∀ t ∈ l, roundTrips t := by
  refine ⟨_, rfl,
    get_supported_round_trip envScenario (some ["38"]) false _ rfl ?_ ?_ ?_ ?_⟩
  · decide
  · intro s hs
    have h38 : some ("38") = some s := by injection hs
    rw [(Option.some.inj h38).symm]
    decide
  · intro s hs
    have hno : (none : Option String) = some s := by injection hs
    exact absurd hno (by simp)
  · intro s hs
    exact absurd hs (List.not_mem_nil s)

end Pep425
